import Mathlib

/-!
Shallow embedding of the movie-recommendation repository's integration core
(`utils.py`, `mediated.py`, `integration.py`).  Strings are modelled as
`List Char` internally (Python `str` operations are re-implemented
character by character); missing values (`NaN` / `None`) are modelled with
`Option`; floating-point numbers are modelled as rationals `ℚ`.
-/

namespace MovieRec

/-- Python's `\s` character class, ASCII part (space, tab, newline,
carriage return, vertical tab, form feed). -/
def pyIsSpace (c : Char) : Bool :=
  c = ' ' || c = '\t' || c = '\n' || c = '\r' || c = '\x0b' || c = '\x0c'

/-- ASCII digit test, the `\d` class restricted to `0`-`9`. -/
def isDigitChar (c : Char) : Bool :=
  '0' ≤ c && c ≤ '9'

/-- Characters kept by the regex `[^a-z0-9\s]` deletion in
`normalize_title` (the title has already been lowercased). -/
def keepChar (c : Char) : Bool :=
  ('a' ≤ c && c ≤ 'z') || isDigitChar c || pyIsSpace c

/-- ASCII lowercasing, as Python `str.lower` acts on ASCII letters
(non-ASCII characters are deleted by the subsequent filter in
`normalize_title`, so only the ASCII behaviour matters). -/
def toLowerChar (c : Char) : Char :=
  if 'A' ≤ c && c ≤ 'Z' then Char.ofNat (c.toNat + 32) else c

/-- Numeric value of an ASCII digit. -/
def digitVal (c : Char) : Nat := c.toNat - '0'.toNat

/-- Python `s.split(sep)` for a single-character separator: splits at every
occurrence, keeping empty pieces (`"".split(",") == [""]`). -/
def splitOnChar (sep : Char) : List Char → List (List Char)
  | [] => [[]]
  | c :: cs =>
    let r := splitOnChar sep cs
    if c = sep then [] :: r
    else
      match r with
      | w :: ws => (c :: w) :: ws
      | [] => [[c]]

/-- Join pieces with a single-character separator, Python `sep.join(parts)`. -/
def joinWith (sep : Char) : List (List Char) → List Char
  | [] => []
  | [w] => w
  | w :: ws => w ++ sep :: joinWith sep ws

/-- Accumulator-based splitting of a character list into maximal runs of
non-whitespace characters; implements Python's no-argument `str.split()`. -/
def wordsOfAux : List Char → List Char → List (List Char)
  | [], acc => if acc = [] then [] else [acc.reverse]
  | c :: cs, acc =>
    if pyIsSpace c then
      if acc = [] then wordsOfAux cs [] else acc.reverse :: wordsOfAux cs []
    else wordsOfAux cs (c :: acc)

/-- Python `str.split()` (split on whitespace runs, no empty words). -/
def wordsOf (cs : List Char) : List (List Char) := wordsOfAux cs []

/-- Words joined by single spaces, Python `" ".join(words)`. -/
def joinWords (ws : List (List Char)) : List Char := joinWith ' ' ws

/-- `" ".join(title.split())`: collapse internal whitespace runs to single
spaces and strip leading/trailing whitespace. -/
def collapseWs (cs : List Char) : List Char := joinWords (wordsOf cs)

/-- `re.sub(r"\s*\(\d{4}\)$", "", title)`: if the string ends with a
four-digit parenthesised year, remove it together with the whitespace run
immediately before it; otherwise return the string unchanged. -/
def stripTrailingYear (cs : List Char) : List Char :=
  match cs.reverse with
  | ')' :: d4 :: d3 :: d2 :: d1 :: '(' :: rest =>
    if isDigitChar d1 && isDigitChar d2 && isDigitChar d3 && isDigitChar d4 then
      (rest.dropWhile pyIsSpace).reverse
    else cs
  | _ => cs

/-- Match the literal characters `art` at the front of the string, then
require at least one whitespace character and drop the whole whitespace
run; `none` when the pattern `art\s+` does not match at position 0. -/
def dropStart : List Char → List Char → Option (List Char)
  | [], rest =>
    match rest with
    | c :: _ => if pyIsSpace c then some (rest.dropWhile pyIsSpace) else none
    | [] => none
  | a :: art, c :: cs => if c = a then dropStart art cs else none
  | _ :: _, [] => none

/-- `re.sub(r"^(the|a|an)\s+", "", title)` as an optional match: the regex
alternation tries `the`, then `a`, then `an`, at the start of the string. -/
def articleStripped (cs : List Char) : Option (List Char) :=
  match dropStart ['t', 'h', 'e'] cs with
  | some r => some r
  | none =>
    match dropStart ['a'] cs with
    | some r => some r
    | none =>
      match dropStart ['a', 'n'] cs with
      | some r => some r
      | none => none

/-- Remove a single leading English article (plus following whitespace) if
present, else the identity. -/
def stripLeadingArticle (cs : List Char) : List Char :=
  (articleStripped cs).getD cs

/-- Whether a leading-article match exists (the second application of
`normalize_title` acts nontrivially exactly on such strings). -/
def hasLeadingArticle (cs : List Char) : Bool := (articleStripped cs).isSome

/-- The full `normalize_title` pipeline of `utils.py` on a character list:
strip trailing `"(YYYY)"`, lowercase, delete all characters outside
`[a-z0-9\s]`, collapse whitespace, then strip one leading article. -/
def normalizeChars (cs : List Char) : List Char :=
  stripLeadingArticle
    (collapseWs (((stripTrailingYear cs).map toLowerChar).filter keepChar))

/-- `normalize_title` of `utils.py` on a present (non-NaN) title string. -/
def normalize_title (s : String) : String := ⟨normalizeChars s.data⟩

/-- `normalize_title` including the `pd.isna` guard: a missing title
normalizes to a missing result. -/
def normalizeTitleOpt : Option String → Option String
  | none => none
  | some s => some (normalize_title s)

/-- Whether the regex `\(\d{4}\)` matches at the current position: the
string starts with `(`, four ASCII digits and `)`; the captured year when
it does. -/
def headYear : List Char → Option Int
  | '(' :: d1 :: d2 :: d3 :: d4 :: ')' :: _ =>
    if isDigitChar d1 && isDigitChar d2 && isDigitChar d3 && isDigitChar d4 then
      some (Int.ofNat
        (digitVal d1 * 1000 + digitVal d2 * 100 + digitVal d3 * 10 + digitVal d4))
    else none
  | _ => none

/-- `re.search(r"\((\d{4})\)", title)`: try the pattern at position 0,
then advance one character at a time; the first (leftmost) match wins,
`none` if no position matches. -/
def findYear : List Char → Option Int
  | [] => none
  | c :: cs =>
    match headYear (c :: cs) with
    | some y => some y
    | none => findYear cs

/-- `extract_year_from_title` of `utils.py` on a present title string. -/
def extract_year_from_title (s : String) : Option Int := findYear s.data

/-- `extract_year_from_title` including the `pd.isna` guard. -/
def extractYearFromTitleOpt : Option String → Option Int
  | none => none
  | some s => extract_year_from_title s

/-- Whether the pattern `\(\d{4}\)` matches the suffix of `cs` starting at
index `p`, and the year value there.  Used to state the leftmost-match
characterisation of `findYear`. -/
def yearPatternAt (cs : List Char) (p : Nat) : Option Int :=
  headYear (cs.drop p)

/-- Modelled after the spec sentence for the MovieLens year rule: the year
taken from a trailing `"(YYYY)"` pattern only (`\s*\(\d{4}\)$`-style suffix
match), `none` when the title does not end with such a pattern. -/
def trailingYearOf (cs : List Char) : Option Int :=
  match cs.reverse with
  | ')' :: d4 :: d3 :: d2 :: d1 :: '(' :: _ =>
    if isDigitChar d1 && isDigitChar d2 && isDigitChar d3 && isDigitChar d4 then
      some (Int.ofNat
        (digitVal d1 * 1000 + digitVal d2 * 100 + digitVal d3 * 10 + digitVal d4))
    else none
  | _ => none

/-- `extract_year_from_date` of `utils.py`: take the first four characters
when they are all digits.  The input is a present date string. -/
def extract_year_from_date (s : String) : Option Int :=
  match s.data with
  | c1 :: c2 :: c3 :: c4 :: _ =>
    if isDigitChar c1 && isDigitChar c2 && isDigitChar c3 && isDigitChar c4 then
      some (Int.ofNat
        (digitVal c1 * 1000 + digitVal c2 * 100 + digitVal c3 * 10 + digitVal c4))
    else none
  | _ => none

/-- Python `str.strip()` with no argument, on a character list. -/
def stripWs (cs : List Char) : List Char :=
  ((cs.dropWhile pyIsSpace).reverse.dropWhile pyIsSpace).reverse

/-- Python `str.strip(chars)`: remove leading and trailing characters that
belong to `chars`. -/
def stripChars (chars : List Char) (cs : List Char) : List Char :=
  ((cs.dropWhile (chars.contains ·)).reverse.dropWhile (chars.contains ·)).reverse

/-- Lowercase every character, Python `str.lower` (ASCII). -/
def lowerChars (cs : List Char) : List Char := cs.map toLowerChar

/-- The genre synonym mapping of `normalize_genres`:
`mapping.get(g, g)` with `mapping = {"sci-fi": "science fiction", "scifi": "science fiction"}`. -/
def genreMapping (g : List Char) : List Char :=
  if g = "sci-fi".data || g = "scifi".data then "science fiction".data else g

/-- Lexicographic comparison of character lists by code point, matching
Python string `<` used by `sorted`. -/
def charListLe : List Char → List Char → Bool
  | [], _ => true
  | _ :: _, [] => false
  | a :: as_, b :: bs => if a = b then charListLe as_ bs else decide (a < b)

/-- Insert into a sorted list of character lists. -/
def insertTok (t : List Char) : List (List Char) → List (List Char)
  | [] => [t]
  | u :: us => if charListLe t u then t :: u :: us else u :: insertTok t us

/-- Insertion sort over character lists; combined with `List.dedup` this
models Python `sorted(set(xs))`. -/
def sortToks (ts : List (List Char)) : List (List Char) := ts.foldr insertTok []

/-- Python `sorted(set(xs))` for string lists: the distinct values in
ascending lexicographic order. -/
def sortedSet (ts : List (List Char)) : List (List Char) := sortToks ts.dedup

/-- TMDb genre input: either a structured Python list of strings or a
single (possibly bracketed) string representation. -/
inductive TmdbGenres where
  | ofList (l : List String)
  | ofStr (s : String)

/-- The raw token lists produced by the `source`-dispatch of
`normalize_genres`, before the synonym mapping. -/
def genreParts : Option String → String → List (List Char)
  | none, _ => []
  | some genres, source =>
    if source = "imdb" then
      (splitOnChar ',' genres.data).map (fun g => lowerChars (stripWs g))
    else if source = "movielens" then
      (splitOnChar '|' genres.data).map (fun g => lowerChars (stripWs g))
    else []

/-- Token lists for the TMDb string branch of `normalize_genres`:
`g_str = str(genres).strip("[]")`, split on commas, keep parts with
non-whitespace content, strip space/quote characters and lowercase. -/
def tmdbStrParts (s : String) : List (List Char) :=
  ((splitOnChar ',' (stripChars ['[', ']'] s.data)).filter
      (fun g => stripWs g ≠ [])).map
    (fun g => lowerChars (stripChars [' ', '\'', '\"'] g))

/-- Token lists for the TMDb list branch of `normalize_genres`. -/
def tmdbListParts (l : List String) : List (List Char) :=
  l.map (fun g => lowerChars (stripWs g.data))

/-- `normalize_genres` of `utils.py` for the `imdb`/`movielens`/other
string sources (the `pd.isna` guard is the `none` case of the first
argument; an unrecognised source yields no parts hence `""`). -/
def normalize_genres (genres : Option String) (source : String) : String :=
  let norm := (genreParts genres source).map genreMapping
  if norm = [] then "" else ⟨joinWith '|' (sortedSet norm)⟩

/-- `normalize_genres` of `utils.py` for the `tmdb` source, whose input can
be a structured list or a bracketed string. -/
def normalizeGenresTmdb (genres : Option TmdbGenres) : String :=
  let parts :=
    match genres with
    | none => []
    | some (.ofList l) => tmdbListParts l
    | some (.ofStr s) => tmdbStrParts s
  let norm := parts.map genreMapping
  if norm = [] then "" else ⟨joinWith '|' (sortedSet norm)⟩

/-- `scale_rating_to_10` of `utils.py`: missing stays missing, MovieLens
means are doubled, every other source passes through unchanged. -/
def scale_rating_to_10 (rating : Option ℚ) (source : String) : Option ℚ :=
  match rating with
  | none => none
  | some r => if source = "movielens" then some (r * 2) else some r

/-- The source tag of a mediated record; the three mediators of
`mediated.py` produce exactly the tags `"imdb"`, `"movielens"`, `"tmdb"`. -/
inductive Source where
  | imdb
  | movielens
  | tmdb
deriving DecidableEq, Repr

/-- One row of the mediated table (`mediated.py`).  `source_id` holds the
string form of the native identifier (the integrator stringifies it with
`str` when joining provenance). -/
structure MediatedRecord where
  movie_temp_id : String
  source : Source
  source_id : String
  title_norm : Option String
  year : Option Int
  genres_norm : String
  rating_value : Option ℚ
  rating_count : Option ℚ
  popularity : Option ℚ
  budget : Option ℚ
  revenue : Option ℚ
deriving DecidableEq, Repr

/-- One row of the integrated movie table (`integrate_movies`).  The three
provenance columns are modelled as the lists of source-id strings that the
code pipe-joins. -/
structure IntegratedMovie where
  movie_id : Nat
  title_norm : Option String
  year : Option Int
  genres_norm : String
  rating_value : Option ℚ
  rating_count : Int
  popularity : Option ℚ
  imdb_ids : List String
  movielens_ids : List String
  tmdb_ids : List String
deriving DecidableEq, Repr

/-- An IMDb input row for `map_imdb_to_mediated`; `startYear` is the result
of the `int(row["startYear"])` try/except (missing or non-numeric is
`none`). -/
structure IMDbRow where
  tconst : String
  primaryTitle : Option String
  startYear : Option Int
  genres : Option String
  averageRating : Option ℚ
  numVotes : Option ℚ

/-- A MovieLens movie row for `map_movielens_to_mediated` (`rating_mean`
and `rating_count` are the pre-aggregated per-movie statistics). -/
structure MLMovieRow where
  movieId : Nat
  title : Option String
  genres : Option String
  rating_mean : Option ℚ
  rating_count : Option ℚ

/-- A TMDb input row for `map_tmdb_to_mediated`.  Optional columns that may
be absent from the CSV are modelled as `none` fields; the year is taken
from the release-date column as in `get_year`. -/
structure TmdbRow where
  id : String
  title : Option String
  genres : Option TmdbGenres
  release_date : Option String
  vote_average : Option ℚ
  vote_count : Option ℚ
  popularity : Option ℚ
  budget : Option ℚ
  revenue : Option ℚ

/-- `map_imdb_to_mediated` of `mediated.py` on one row. -/
def map_imdb_to_mediated (row : IMDbRow) : MediatedRecord where
  movie_temp_id := "imdb:" ++ row.tconst
  source := .imdb
  source_id := row.tconst
  title_norm := normalizeTitleOpt row.primaryTitle
  year := row.startYear
  genres_norm := normalize_genres row.genres "imdb"
  rating_value := scale_rating_to_10 row.averageRating "imdb"
  rating_count := row.numVotes
  popularity := none
  budget := none
  revenue := none

/-- `map_movielens_to_mediated` of `mediated.py` on one row. -/
def map_movielens_to_mediated (row : MLMovieRow) : MediatedRecord where
  movie_temp_id := "ml:" ++ toString row.movieId
  source := .movielens
  source_id := toString row.movieId
  title_norm := normalizeTitleOpt row.title
  year := extractYearFromTitleOpt row.title
  genres_norm := normalize_genres row.genres "movielens"
  rating_value := scale_rating_to_10 row.rating_mean "movielens"
  rating_count := row.rating_count
  popularity := none
  budget := none
  revenue := none

/-- `map_tmdb_to_mediated` of `mediated.py` on one row (release-date year
path). -/
def map_tmdb_to_mediated (row : TmdbRow) : MediatedRecord where
  movie_temp_id := "tmdb:" ++ row.id
  source := .tmdb
  source_id := row.id
  title_norm := normalizeTitleOpt row.title
  year :=
    match row.release_date with
    | none => none
    | some d => extract_year_from_date d
  genres_norm := normalizeGenresTmdb row.genres
  rating_value := scale_rating_to_10 row.vote_average "tmdb"
  rating_count := row.vote_count
  popularity := row.popularity
  budget := row.budget
  revenue := row.revenue

/-- `build_mediated_table`: the three mapped tables stacked with
`pd.concat`. -/
def build_mediated_table (imdb : List IMDbRow) (ml : List MLMovieRow)
    (tmdb : List TmdbRow) : List MediatedRecord :=
  imdb.map map_imdb_to_mediated ++ ml.map map_movielens_to_mediated ++
    tmdb.map map_tmdb_to_mediated

/-- The grouping key of `integrate_movies`: the exact pair
`(title_norm, year)`, missing values included (`dropna=False`). -/
def groupKey (r : MediatedRecord) : Option String × Option Int :=
  (r.title_norm, r.year)

/-- Strict lexicographic comparison of character lists by code point,
matching Python string `<`. -/
def charListLt : List Char → List Char → Bool
  | [], [] => false
  | [], _ :: _ => true
  | _ :: _, [] => false
  | a :: as_, b :: bs => if a = b then charListLt as_ bs else decide (a < b)

/-- Strict order on optional titles with missing values last, as pandas
sorts group keys (`NaN` placed last). -/
def optStrLt : Option String → Option String → Prop
  | some a, some b => charListLt a.data b.data = true
  | some _, none => True
  | none, _ => False

/-- Non-strict order on optional years with missing values last. -/
def optIntLe : Option Int → Option Int → Prop
  | some a, some b => a ≤ b
  | some _, none => True
  | none, some _ => False
  | none, none => True

instance : ∀ a b, Decidable (optStrLt a b) := fun a b =>
  match a, b with
  | some a, some b => inferInstanceAs (Decidable (charListLt a.data b.data = true))
  | some _, none => inferInstanceAs (Decidable True)
  | none, some _ => inferInstanceAs (Decidable False)
  | none, none => inferInstanceAs (Decidable False)

instance : ∀ a b, Decidable (optIntLe a b) := fun a b =>
  match a, b with
  | some a, some b => inferInstanceAs (Decidable (a ≤ b))
  | some _, none => inferInstanceAs (Decidable True)
  | none, some _ => inferInstanceAs (Decidable False)
  | none, none => inferInstanceAs (Decidable True)

/-- The lexicographic order on group keys used by pandas `groupby` with
`sort=True`: titles first (missing last), then years (missing last). -/
def keyLe (k1 k2 : Option String × Option Int) : Prop :=
  optStrLt k1.1 k2.1 ∨ (k1.1 = k2.1 ∧ optIntLe k1.2 k2.2)

instance : DecidableRel keyLe := fun _ _ =>
  inferInstanceAs (Decidable (_ ∨ _))

/-- `rating_count` with missing values coerced to zero:
`group["rating_count"].fillna(0)`. -/
def fillCount (r : MediatedRecord) : ℚ := r.rating_count.getD 0

/-- `np.sum(counts)` over a group after `fillna(0)`. -/
def groupCountSum (g : List MediatedRecord) : ℚ := (g.map fillCount).sum

/-- `np.nansum(ratings * counts)` over a group: a member with a missing
rating yields a `NaN` product which `nansum` skips; a member with a known
rating contributes `rating * count` with its missing count filled to 0. -/
def groupWeightedSum (g : List MediatedRecord) : ℚ :=
  (g.map (fun r =>
    match r.rating_value with
    | none => 0
    | some v => v * fillCount r)).sum

/-- Python `int()` on a float value: truncation toward zero. -/
def pyTruncInt (q : ℚ) : Int := if 0 ≤ q then q.floor else -((-q).floor)

/-- `NaN`-skipping maximum, as `Series.max()` with default `skipna`. -/
def optMax : Option ℚ → Option ℚ → Option ℚ
  | none, b => b
  | some a, none => some a
  | some a, some b => some (max a b)

/-- Maximum of the present values of a list, `none` when all missing. -/
def listMaxOpt (l : List (Option ℚ)) : Option ℚ := l.foldr optMax none

/-- The genres-union step of `integrate_movies`: extend with the `|`-split
pieces of every non-empty member `genres_norm`, then
`"|".join(sorted(set(...)))` (empty when no piece was collected). -/
def mergeGenres (g : List MediatedRecord) : String :=
  let all_genres :=
    (g.map (fun r =>
      if r.genres_norm = "" then [] else splitOnChar '|' r.genres_norm.data)).flatten
  if all_genres = [] then "" else ⟨joinWith '|' (sortedSet all_genres)⟩

/-- The per-group merge of `integrate_movies`: provenance partition by
source tag, genre union, count-weighted rating, truncated total count,
`NaN`-skipping popularity maximum. -/
def mergeGroup (i : Nat) (k : Option String × Option Int)
    (g : List MediatedRecord) : IntegratedMovie where
  movie_id := i
  title_norm := k.1
  year := k.2
  genres_norm := mergeGenres g
  rating_value :=
    if 0 < groupCountSum g then some (groupWeightedSum g / groupCountSum g)
    else none
  rating_count := pyTruncInt (groupCountSum g)
  popularity := listMaxOpt (g.map (·.popularity))
  imdb_ids := (g.filter (fun r => r.source = .imdb)).map (·.source_id)
  movielens_ids := (g.filter (fun r => r.source = .movielens)).map (·.source_id)
  tmdb_ids := (g.filter (fun r => r.source = .tmdb)).map (·.source_id)

/-- The distinct group keys of the mediated table in the order pandas
`groupby(..., sort=True)` iterates them: sorted ascending, missing last. -/
def sortedGroupKeys (rows : List MediatedRecord) :
    List (Option String × Option Int) :=
  List.insertionSort keyLe ((rows.map groupKey).dedup)

/-- The grouped iteration of `integrate_movies` with the running
`integrated_id` counter. -/
def integrateAux (rows : List MediatedRecord) :
    Nat → List (Option String × Option Int) → List IntegratedMovie
  | _, [] => []
  | i, k :: ks =>
    mergeGroup i k (rows.filter (fun r => groupKey r = k)) ::
      integrateAux rows (i + 1) ks

/-- `integrate_movies` of `integration.py`: group on `(title_norm, year)`
with `dropna=False`, iterate the groups in pandas `sort=True` key order,
assign `movie_id` starting from 1. -/
def integrate_movies (rows : List MediatedRecord) : List IntegratedMovie :=
  integrateAux rows 1 (sortedGroupKeys rows)

/-- One MovieLens rating row (`userId, movieId, rating, timestamp`). -/
structure RatingRow where
  userId : Nat
  movieId : Nat
  rating : ℚ
  timestamp : Nat
deriving DecidableEq, Repr

/-- A rating row carrying the resolved canonical `movie_id` column. -/
structure MappedRating where
  row : RatingRow
  movie_id : Nat
deriving DecidableEq, Repr

/-- The `ml_to_integrated` dictionary of
`map_movielens_ratings_to_integrated`, built by inserting every non-empty
native id of every integrated row in iteration order; a later insertion
for the same key overwrites an earlier one, exactly as a Python dict
assignment does. -/
def mlToIntegrated (integrated : List IntegratedMovie) : String → Option Nat :=
  integrated.foldl
    (fun acc row =>
      (row.movielens_ids.filter (fun mid => mid ≠ "")).foldl
        (fun acc2 mid => fun q => if q = mid then some row.movie_id else acc2 q)
        acc)
    (fun _ => none)

/-- `map_movielens_ratings_to_integrated` of `integration.py`: keep the
rating rows whose native `movieId` is a key of the lookup and attach the
resolved `movie_id`; rows with no mapping are silently dropped. -/
def map_movielens_ratings_to_integrated (integrated : List IntegratedMovie)
    (ratings : List RatingRow) : List MappedRating :=
  ratings.filterMap (fun r =>
    (mlToIntegrated integrated (toString r.movieId)).map
      (fun mid => MappedRating.mk r mid))

/-! ### Order facts for the group-key sort -/

theorem charListLt_trans : ∀ {a b c : List Char},
    charListLt a b = true → charListLt b c = true → charListLt a c = true
  | [], _ :: _, _ :: _, _, _ => rfl
  | [], _ :: _, [], _, h2 => by simp [charListLt] at h2
  | [], [], _, h1, _ => by simp [charListLt] at h1
  | _ :: _, [], _, h1, _ => by simp [charListLt] at h1
  | _ :: _, _ :: _, [], _, h2 => by simp [charListLt] at h2
  | a :: as_, b :: bs, c :: cs, h1, h2 => by
    simp only [charListLt] at h1 h2 ⊢
    by_cases hab : a = b
    · subst hab
      rw [if_pos rfl] at h1
      by_cases hac : a = c
      · subst hac
        rw [if_pos rfl] at h2 ⊢
        exact charListLt_trans h1 h2
      · rw [if_neg hac] at h2 ⊢
        exact h2
    · rw [if_neg hab] at h1
      by_cases hbc : b = c
      · subst hbc
        rw [if_neg hab]
        exact h1
      · rw [if_neg hbc] at h2
        have hac : a < c := lt_trans (of_decide_eq_true h1) (of_decide_eq_true h2)
        rw [if_neg (ne_of_lt hac)]
        exact decide_eq_true hac

theorem charListLt_conn : ∀ {a b : List Char},
    charListLt a b = false → charListLt b a = false → a = b
  | [], [], _, _ => rfl
  | [], _ :: _, h1, _ => by simp [charListLt] at h1
  | _ :: _, [], _, h2 => by simp [charListLt] at h2
  | a :: as_, b :: bs, h1, h2 => by
    by_cases hab : a = b
    · subst hab
      simp only [charListLt, if_pos rfl] at h1 h2
      rw [charListLt_conn h1 h2]
    · exfalso
      simp only [charListLt, if_neg hab, if_neg (Ne.symm hab),
        decide_eq_false_iff_not] at h1 h2
      rcases lt_trichotomy a b with h | h | h
      · exact h1 h
      · exact hab h
      · exact h2 h

theorem optStrLt_conn {a b : Option String} (h1 : ¬ optStrLt a b)
    (h2 : ¬ optStrLt b a) : a = b := by
  match a, b with
  | none, none => rfl
  | none, some t => exact absurd trivial h2
  | some s, none => exact absurd trivial h1
  | some s, some t =>
    simp only [optStrLt] at h1 h2
    have hd : s.data = t.data :=
      charListLt_conn (Bool.eq_false_iff.mpr h1) (Bool.eq_false_iff.mpr h2)
    exact congrArg (fun l => some (String.mk l)) hd

theorem optStrLt_trans {a b c : Option String} (h1 : optStrLt a b)
    (h2 : optStrLt b c) : optStrLt a c := by
  match a, b, c with
  | some s, some t, some u => exact charListLt_trans h1 h2
  | some s, some t, none => trivial
  | some s, none, none => trivial
  | some s, none, some u => exact absurd h2 (by simp [optStrLt])
  | none, b, c => exact absurd h1 (by cases b <;> simp [optStrLt])

theorem optIntLe_total (a b : Option Int) : optIntLe a b ∨ optIntLe b a := by
  match a, b with
  | none, none => exact Or.inl trivial
  | none, some _ => exact Or.inr trivial
  | some _, none => exact Or.inl trivial
  | some x, some y => exact le_total x y

theorem optIntLe_trans {a b c : Option Int} (h1 : optIntLe a b)
    (h2 : optIntLe b c) : optIntLe a c := by
  match a, b, c with
  | some x, some y, some z => exact le_trans h1 h2
  | some x, some y, none => trivial
  | some x, none, none => trivial
  | some x, none, some z => exact absurd h2 (by simp [optIntLe])
  | none, some y, c => exact absurd h1 (by simp [optIntLe])
  | none, none, some z => exact absurd h2 (by simp [optIntLe])
  | none, none, none => trivial

instance : IsTotal (Option String × Option Int) keyLe where
  total := by
    rintro ⟨t1, y1⟩ ⟨t2, y2⟩
    by_cases h1 : optStrLt t1 t2
    · exact Or.inl (Or.inl h1)
    by_cases h2 : optStrLt t2 t1
    · exact Or.inr (Or.inl h2)
    have heq : t1 = t2 := optStrLt_conn h1 h2
    rcases optIntLe_total y1 y2 with hy | hy
    · exact Or.inl (Or.inr ⟨heq, hy⟩)
    · exact Or.inr (Or.inr ⟨heq.symm, hy⟩)

instance : IsTrans (Option String × Option Int) keyLe where
  trans := by
    rintro ⟨t1, y1⟩ ⟨t2, y2⟩ ⟨t3, y3⟩ (h12 | ⟨e12, l12⟩) (h23 | ⟨e23, l23⟩)
    · exact Or.inl (optStrLt_trans h12 h23)
    · exact Or.inl (e23 ▸ h12)
    · exact Or.inl (e12 ▸ h23)
    · exact Or.inr ⟨e12.trans e23, optIntLe_trans l12 l23⟩

/-! ### Structure of the integrated output -/

theorem integrateAux_map_key (rows : List MediatedRecord) :
    ∀ (ks : List (Option String × Option Int)) (i : Nat),
      (integrateAux rows i ks).map (fun m => (m.title_norm, m.year)) = ks
  | [], _ => rfl
  | k :: ks, i => by
    simp [integrateAux, mergeGroup, integrateAux_map_key rows ks (i + 1)]

theorem integrateAux_map_id (rows : List MediatedRecord) :
    ∀ (ks : List (Option String × Option Int)) (i : Nat),
      (integrateAux rows i ks).map (fun m => m.movie_id) = List.range' i ks.length
  | [], _ => rfl
  | k :: ks, i => by
    simp [integrateAux, mergeGroup, List.range',
      integrateAux_map_id rows ks (i + 1)]

theorem integrateAux_length (rows : List MediatedRecord)
    (ks : List (Option String × Option Int)) (i : Nat) :
    (integrateAux rows i ks).length = ks.length := by
  have := congrArg List.length (integrateAux_map_id rows ks i)
  simpa using this

/-- C3: for a mediated table yielding `N` groups, the `movie_id` column of
`integrate_movies` is exactly `[1, 2, ..., N]`: the ids are positive,
pairwise distinct, dense and contiguous with no gaps or reuse, and `N` is
the number of distinct `(title_norm, year)` keys. -/
theorem integrate_movie_ids_dense (rows : List MediatedRecord) :
    (integrate_movies rows).map (fun m => m.movie_id) =
      List.range' 1 ((rows.map groupKey).dedup.length) ∧
    (integrate_movies rows).length = ((rows.map groupKey).dedup).length := by
  constructor
  · rw [integrate_movies, integrateAux_map_id]
    congr 1
    exact (List.perm_insertionSort keyLe _).length_eq
  · rw [integrate_movies, integrateAux_length, sortedGroupKeys]
    exact (List.perm_insertionSort keyLe _).length_eq

/-- C1 (amended): `integrate_movies` does not keep the first-appearance
order of group keys; pandas `groupby` with its default `sort=True` sorts
the distinct `(title_norm, year)` keys ascending (missing values last),
and `movie_id` is assigned sequentially starting at 1 in that sorted
order, so each group's `movie_id` is a pure function of its rank in the
sorted key order. -/
theorem integrate_order_sorted (rows : List MediatedRecord) :
    ((integrate_movies rows).map (fun m => (m.title_norm, m.year))).Sorted keyLe ∧
    ((integrate_movies rows).map (fun m => (m.title_norm, m.year))).Nodup ∧
    (∀ k, k ∈ (integrate_movies rows).map (fun m => (m.title_norm, m.year)) ↔
      k ∈ rows.map groupKey) ∧
    (∀ i (h : i < (integrate_movies rows).length),
      ((integrate_movies rows).get ⟨i, h⟩).movie_id = i + 1) := by
  refine ⟨?_, ?_, ?_, ?_⟩
  · rw [integrate_movies, integrateAux_map_key]
    exact List.sorted_insertionSort keyLe _
  · rw [integrate_movies, integrateAux_map_key]
    exact (List.perm_insertionSort keyLe _).symm.nodup
      ((rows.map groupKey).nodup_dedup)
  · intro k
    rw [integrate_movies, integrateAux_map_key, sortedGroupKeys,
      (List.perm_insertionSort keyLe _).mem_iff]
    exact List.mem_dedup
  · intro i h
    have hm := integrateAux_map_id rows (sortedGroupKeys rows) 1
    have hlen : i < (integrateAux rows 1 (sortedGroupKeys rows)).length := by
      simpa [integrate_movies] using h
    have hmap : i < ((integrateAux rows 1 (sortedGroupKeys rows)).map
        (fun m => m.movie_id)).length := by
      simpa using hlen
    have hget := List.getElem_of_eq hm hmap
    rw [List.getElem_map, List.getElem_range'_1] at hget
    simp only [integrate_movies, List.get_eq_getElem]
    exact hget.trans (Nat.add_comm 1 i)

/-- A mediated table whose first-appearing group key `("b", 2000)` is
lexicographically after the key `("a", 2000)` of the second record. -/
def exC1 : List MediatedRecord :=
  [⟨"imdb:tt1", .imdb, "tt1", some "b", some 2000, "", none, none, none, none, none⟩,
   ⟨"imdb:tt2", .imdb, "tt2", some "a", some 2000, "", none, none, none, none, none⟩]

/-- C1 counterexample: in `exC1` the key `("b", 2000)` appears first when
scanning the table, yet its group receives `movie_id = 2` while the
later-appearing key `("a", 2000)` receives `movie_id = 1` — the groups are
processed in sorted key order, not first-appearance order, so `movie_id`
is not a function of first-appearance position. -/
theorem integrate_order_counterexample :
    exC1.map groupKey = [(some "b", some 2000), (some "a", some 2000)] ∧
    (integrate_movies exC1).map (fun m => (m.title_norm, m.movie_id)) =
      [(some "a", 1), (some "b", 2)] := by
  constructor
  · decide
  · decide

/-! ### Provenance partition -/

/-- All source ids recorded in an integrated row's three provenance
columns. -/
def provIds (m : IntegratedMovie) : List String :=
  m.imdb_ids ++ m.movielens_ids ++ m.tmdb_ids

/-- The source ids of a group partitioned by source tag, in the layout
`mergeGroup` stores them. -/
def sourcePartition (g : List MediatedRecord) : List String :=
  (g.filter (fun r => r.source = Source.imdb)).map (fun r => r.source_id) ++
    (g.filter (fun r => r.source = Source.movielens)).map (fun r => r.source_id) ++
    (g.filter (fun r => r.source = Source.tmdb)).map (fun r => r.source_id)

theorem mergeGroup_provIds (i : Nat) (k : Option String × Option Int)
    (g : List MediatedRecord) : provIds (mergeGroup i k g) = sourcePartition g := rfl

theorem sourcePartition_perm (g : List MediatedRecord) :
    List.Perm (sourcePartition g) (g.map (fun r => r.source_id)) := by
  induction g with
  | nil => simp [sourcePartition]
  | cons r g ih =>
    cases hs : r.source
    · have : sourcePartition (r :: g) =
          r.source_id :: ((g.filter (fun x => x.source = Source.imdb)).map (fun x => x.source_id) ++
            (g.filter (fun x => x.source = Source.movielens)).map (fun x => x.source_id) ++
            (g.filter (fun x => x.source = Source.tmdb)).map (fun x => x.source_id)) := by
        simp [sourcePartition, List.filter_cons, hs]
      rw [this, List.map_cons]
      exact (ih.cons r.source_id)
    · have : sourcePartition (r :: g) =
          (g.filter (fun x => x.source = Source.imdb)).map (fun x => x.source_id) ++
            r.source_id :: ((g.filter (fun x => x.source = Source.movielens)).map (fun x => x.source_id) ++
              (g.filter (fun x => x.source = Source.tmdb)).map (fun x => x.source_id)) := by
        simp [sourcePartition, List.filter_cons, hs]
      rw [this, List.map_cons]
      refine List.perm_middle.trans ?_
      refine List.Perm.cons r.source_id ?_
      simpa [sourcePartition, List.append_assoc] using ih
    · have : sourcePartition (r :: g) =
          ((g.filter (fun x => x.source = Source.imdb)).map (fun x => x.source_id) ++
            (g.filter (fun x => x.source = Source.movielens)).map (fun x => x.source_id)) ++
            r.source_id :: (g.filter (fun x => x.source = Source.tmdb)).map (fun x => x.source_id) := by
        simp [sourcePartition, List.filter_cons, hs]
      rw [this, List.map_cons]
      have hmid : List.Perm
          (((g.filter (fun x => x.source = Source.imdb)).map (fun x => x.source_id) ++
            (g.filter (fun x => x.source = Source.movielens)).map (fun x => x.source_id)) ++
            r.source_id :: (g.filter (fun x => x.source = Source.tmdb)).map (fun x => x.source_id))
          (r.source_id ::
            (((g.filter (fun x => x.source = Source.imdb)).map (fun x => x.source_id) ++
              (g.filter (fun x => x.source = Source.movielens)).map (fun x => x.source_id)) ++
              (g.filter (fun x => x.source = Source.tmdb)).map (fun x => x.source_id))) :=
        List.perm_middle
      refine hmid.trans ?_
      refine List.Perm.cons r.source_id ?_
      simpa [sourcePartition, List.append_assoc] using ih

theorem flatten_map_perm {α β : Type _} (ks : List α) (f g : α → List β)
    (h : ∀ k ∈ ks, List.Perm (f k) (g k)) :
    List.Perm ((ks.map f).flatten) ((ks.map g).flatten) := by
  induction ks with
  | nil => simp
  | cons k ks ih =>
    simp only [List.map_cons, List.flatten_cons]
    exact (h k (List.mem_cons_self k ks)).append
      (ih (fun k' hk' => h k' (List.mem_cons_of_mem k hk')))

theorem groups_flatten_perm :
    ∀ (ks : List (Option String × Option Int)) (rows : List MediatedRecord),
      ks.Nodup → (∀ r ∈ rows, groupKey r ∈ ks) →
      List.Perm ((ks.map (fun k => rows.filter (fun r => groupKey r = k))).flatten) rows
  | [], rows, _, hcov => by
    have : rows = [] := List.eq_nil_iff_forall_not_mem.mpr
      (fun r hr => by simpa using hcov r hr)
    subst this
    simp
  | k :: ks, rows, hnd, hcov => by
    simp only [List.map_cons, List.flatten_cons]
    have htail : (ks.map (fun k' => rows.filter (fun r => groupKey r = k'))) =
        (ks.map (fun k' =>
          (rows.filter (fun r => !(groupKey r = k))).filter (fun r => groupKey r = k'))) := by
      refine List.map_congr_left (fun k' hk' => ?_)
      rw [List.filter_filter]
      refine (List.filter_congr (fun r _ => ?_)).symm
      by_cases h : groupKey r = k'
      · have hne : k' ≠ k := by
          intro hkk
          rw [hkk] at hk'
          exact (List.nodup_cons.mp hnd).1 hk'
        simp [h, hne]
      · simp [h]
    rw [htail]
    have ihp := groups_flatten_perm ks (rows.filter (fun r => !(groupKey r = k)))
      (List.nodup_cons.mp hnd).2
      (fun r hr => by
        have hr' := List.mem_filter.mp hr
        have hcv := hcov r hr'.1
        have hne : groupKey r ≠ k := by simpa using hr'.2
        rcases List.mem_cons.mp hcv with h | h
        · exact absurd h hne
        · exact h)
    exact ((List.Perm.append_left _ ihp).trans
      (List.filter_append_perm (fun r => groupKey r = k) rows))

theorem integrateAux_map_provIds (rows : List MediatedRecord) :
    ∀ (ks : List (Option String × Option Int)) (i : Nat),
      (integrateAux rows i ks).map provIds =
        ks.map (fun k => sourcePartition (rows.filter (fun r => groupKey r = k)))
  | [], _ => rfl
  | k :: ks, i => by
    simp only [integrateAux, List.map_cons, mergeGroup_provIds]
    rw [integrateAux_map_provIds rows ks (i + 1)]

/-- C2: provenance is a disjoint cover.  For every mediated table, the
multiset of source ids collected over all integrated rows' three
provenance columns is a permutation of the table's `source_id` column: no
record is dropped or duplicated across groups (records with missing
`title_norm` and unknown `year` included, since `dropna=False` keeps their
group), and each record lands in the provenance column of its own source
tag. -/
theorem provenance_partition (rows : List MediatedRecord) :
    List.Perm (((integrate_movies rows).map provIds).flatten)
      (rows.map (fun r => r.source_id)) := by
  rw [integrate_movies, integrateAux_map_provIds]
  have h1 := flatten_map_perm (sortedGroupKeys rows)
    (fun k => sourcePartition (rows.filter (fun r => groupKey r = k)))
    (fun k => (rows.filter (fun r => groupKey r = k)).map (fun r => r.source_id))
    (fun k _ => sourcePartition_perm _)
  refine h1.trans ?_
  have h2 : ((sortedGroupKeys rows).map
      (fun k => (rows.filter (fun r => groupKey r = k)).map (fun r => r.source_id))).flatten =
      (((sortedGroupKeys rows).map
        (fun k => rows.filter (fun r => groupKey r = k))).flatten).map (fun r => r.source_id) := by
    rw [List.map_flatten, List.map_map]
    rfl
  rw [h2]
  refine List.Perm.map _ ?_
  refine groups_flatten_perm (sortedGroupKeys rows) rows ?_ ?_
  · exact (List.perm_insertionSort keyLe _).symm.nodup
      ((rows.map groupKey).nodup_dedup)
  · intro r hr
    rw [sortedGroupKeys, (List.perm_insertionSort keyLe _).mem_iff, List.mem_dedup]
    exact List.mem_map_of_mem groupKey hr

/-! ### Weighted rating merge -/

theorem groupWeightedSum_eq_filterMap (g : List MediatedRecord) :
    groupWeightedSum g =
      (g.filterMap (fun r => r.rating_value.map (fun v => v * r.rating_count.getD 0))).sum := by
  induction g with
  | nil => rfl
  | cons r g ih =>
    cases hr : r.rating_value <;>
      simp [groupWeightedSum, List.filterMap_cons, hr, fillCount] <;>
      simpa [groupWeightedSum, fillCount] using ih

/-- C4: within a group, when the sum of the members' rating counts
(missing counts coerced to 0) is positive, the merged `rating_value` is
the count-weighted average `sum(rating_i * count_i) / sum(count_i)` in
which members with an unknown rating contribute nothing to the weighted
sum (their `NaN` product is skipped by `nansum`) while every member's
filled count stays in the denominator; when the total count is zero the
merged rating is unknown. -/
theorem integrate_weighted_rating (i : Nat) (k : Option String × Option Int)
    (g : List MediatedRecord) :
    (0 < (g.map (fun r => r.rating_count.getD 0)).sum →
      (mergeGroup i k g).rating_value = some
        ((g.filterMap (fun r => r.rating_value.map (fun v => v * r.rating_count.getD 0))).sum /
          (g.map (fun r => r.rating_count.getD 0)).sum)) ∧
    ((g.map (fun r => r.rating_count.getD 0)).sum = 0 →
      (mergeGroup i k g).rating_value = none) := by
  have hc : groupCountSum g = (g.map (fun r => r.rating_count.getD 0)).sum := rfl
  constructor
  · intro h
    simp only [mergeGroup]
    rw [if_pos (lt_of_lt_of_eq h hc.symm)]
    rw [groupWeightedSum_eq_filterMap, hc]
  · intro h
    simp only [mergeGroup]
    rw [if_neg]
    rw [hc, h]
    exact lt_irrefl 0

/-- The `(rating=8, count=100)` member of the spec's weighted-rating
example. -/
def exC4a : MediatedRecord :=
  ⟨"imdb:tt1", .imdb, "tt1", some "m", some 1999, "", some 8, some 100, none, none, none⟩

/-- The `(rating=6, count unknown → 0)` member of the spec's
weighted-rating example. -/
def exC4b : MediatedRecord :=
  ⟨"tmdb:9", .tmdb, "9", some "m", some 1999, "", some 6, none, none, none, none⟩

/-- Witness for C4: the concrete group `(8, 100)` and `(6, missing → 0)`
has positive total count and merges to exactly `8`. -/
theorem integrate_weighted_rating_witness :
    (0 : ℚ) < ([exC4a, exC4b].map (fun r => r.rating_count.getD 0)).sum ∧
    (mergeGroup 1 (some "m", some 1999) [exC4a, exC4b]).rating_value = some 8 := by
  have h : (0 : ℚ) < ([exC4a, exC4b].map (fun r => r.rating_count.getD 0)).sum := by
    norm_num [exC4a, exC4b]
  refine ⟨h, ?_⟩
  have hv := (integrate_weighted_rating 1 (some "m", some 1999) [exC4a, exC4b]).1 h
  rw [hv]
  norm_num [exC4a, exC4b, List.filterMap_cons]

/-! ### Rating remapping -/

theorem dictInsert_fold (mid_id : Nat) :
    ∀ (ids : List String) (acc : String → Option Nat) (q : String),
      (ids.foldl (fun acc2 mid => fun p => if p = mid then some mid_id else acc2 p) acc) q =
        if q ∈ ids then some mid_id else acc q
  | [], acc, q => by simp
  | mid :: ids, acc, q => by
    rw [List.foldl_cons, dictInsert_fold mid_id ids _ q]
    by_cases hi : q ∈ ids
    · simp [hi]
    · by_cases hm : q = mid <;> simp [hi, hm]

theorem mlToIntegrated_append (l : List IntegratedMovie) (row : IntegratedMovie)
    (q : String) :
    mlToIntegrated (l ++ [row]) q =
      if q ∈ row.movielens_ids.filter (fun mid => mid ≠ "") then some row.movie_id
      else mlToIntegrated l q := by
  rw [mlToIntegrated, List.foldl_append, List.foldl_cons, List.foldl_nil]
  rw [dictInsert_fold]
  rfl

theorem remap_lookup_of_mem (integrated : List IntegratedMovie)
    (ratings : List RatingRow) :
    ∀ p ∈ map_movielens_ratings_to_integrated integrated ratings,
      mlToIntegrated integrated (toString p.row.movieId) = some p.movie_id := by
  intro p hp
  obtain ⟨r, hr, heq⟩ := List.mem_filterMap.mp hp
  cases hl : mlToIntegrated integrated (toString r.movieId) with
  | none =>
    rw [hl] at heq
    exact Option.noConfusion heq
  | some mid =>
    rw [hl] at heq
    have h2 := Option.some.inj heq
    cases h2
    exact hl

/-- C5: the rating remapper silently drops unmapped rows.  The surviving
rows are exactly those whose native MovieLens id is a key of the
provenance lookup (so the output is strictly shorter than the input
whenever an unmapped row exists, and no error path exists — the function
is total), and every surviving row receives the `movie_id` the lookup
resolves its native id to. -/
theorem rating_remap_drop (integrated : List IntegratedMovie)
    (ratings : List RatingRow) :
    ((map_movielens_ratings_to_integrated integrated ratings).map (fun p => p.row) =
      ratings.filter (fun r => (mlToIntegrated integrated (toString r.movieId)).isSome)) ∧
    (∀ p ∈ map_movielens_ratings_to_integrated integrated ratings,
      mlToIntegrated integrated (toString p.row.movieId) = some p.movie_id) ∧
    ((∃ r ∈ ratings, mlToIntegrated integrated (toString r.movieId) = none) →
      (map_movielens_ratings_to_integrated integrated ratings).length < ratings.length) := by
  have h1 : (map_movielens_ratings_to_integrated integrated ratings).map (fun p => p.row) =
      ratings.filter (fun r => (mlToIntegrated integrated (toString r.movieId)).isSome) := by
    induction ratings with
    | nil => rfl
    | cons r rs ih =>
      rw [map_movielens_ratings_to_integrated] at ih ⊢
      cases hl : mlToIntegrated integrated (toString r.movieId) <;>
        simp [List.filterMap_cons, List.filter_cons, hl, ih]
  refine ⟨h1, remap_lookup_of_mem integrated ratings, ?_⟩
  rintro ⟨r, hr, hnone⟩
  have hlen : (map_movielens_ratings_to_integrated integrated ratings).length =
      (ratings.filter (fun r => (mlToIntegrated integrated (toString r.movieId)).isSome)).length := by
    rw [← h1, List.length_map]
  rw [hlen]
  exact List.length_filter_lt_length_iff_exists.mpr ⟨r, hr, by simp [hnone]⟩

/-- An integrated row owning native MovieLens id `"5"`. -/
def exC5row : IntegratedMovie := ⟨1, some "m", some 1999, "", none, 0, none, [], ["5"], []⟩

/-- A rating row whose native id `5` is mapped. -/
def exC5r1 : RatingRow := ⟨1, 5, 4, 0⟩

/-- A rating row whose native id `99` appears in no provenance list. -/
def exC5r2 : RatingRow := ⟨1, 99, 3, 0⟩

/-- Witness for C5: with one mapped and one unmapped rating row, an
unmapped row exists and the remapped output is strictly shorter than the
input. -/
theorem rating_remap_drop_witness :
    (∃ r ∈ [exC5r1, exC5r2], mlToIntegrated [exC5row] (toString r.movieId) = none) ∧
    (map_movielens_ratings_to_integrated [exC5row] [exC5r1, exC5r2]).length <
      ([exC5r1, exC5r2] : List RatingRow).length := by
  refine ⟨?_, ?_⟩
  · exact ⟨exC5r2, by decide, by decide⟩
  · exact (rating_remap_drop [exC5row] [exC5r1, exC5r2]).2.2 ⟨exC5r2, by decide, by decide⟩

/-- Rows whose provenance does not list `q` leave the lookup's binding for
`q` unchanged, wherever they occur in the iteration. -/
theorem mlToIntegrated_append_no_owner :
    ∀ (suf l : List IntegratedMovie) (q : String),
      (∀ r ∈ suf, q ∉ r.movielens_ids) →
      mlToIntegrated (l ++ suf) q = mlToIntegrated l q
  | [], l, q, _ => by rw [List.append_nil]
  | r :: suf, l, q, h => by
    have hl : l ++ r :: suf = (l ++ [r]) ++ suf := by
      rw [List.append_assoc]
      rfl
    rw [hl, mlToIntegrated_append_no_owner suf (l ++ [r]) q
      (fun r' hr' => h r' (List.mem_cons_of_mem r hr'))]
    rw [mlToIntegrated_append]
    rw [if_neg (fun hmem =>
      h r (List.mem_cons_self r suf) (List.mem_filter.mp hmem).1)]

/-- C10: when the same native MovieLens id occurs in the provenance of
more than one integrated row, the dictionary built by
`map_movielens_ratings_to_integrated` silently binds the id to the
`movie_id` of the last such row in iteration order (later insertions
overwrite earlier ones, and rows after the last owner never list the id,
so its binding survives them), every surviving rating row carrying that
native id is remapped to that single `movie_id`, and no error or warning
is raised (the lookup and the remap are total functions). -/
theorem duplicate_native_id_last_wins (pre suf : List IntegratedMovie)
    (rowLast : IntegratedMovie) (q : String)
    (_hdup : ∃ r ∈ pre, q ∈ r.movielens_ids)
    (hmem : q ∈ rowLast.movielens_ids) (hne : q ≠ "")
    (hsuf : ∀ r ∈ suf, q ∉ r.movielens_ids) :
    mlToIntegrated (pre ++ rowLast :: suf) q = some rowLast.movie_id ∧
    ∀ (ratings : List RatingRow) (p : MappedRating),
      p ∈ map_movielens_ratings_to_integrated (pre ++ rowLast :: suf) ratings →
      toString p.row.movieId = q → p.movie_id = rowLast.movie_id := by
  have hshape : pre ++ rowLast :: suf = (pre ++ [rowLast]) ++ suf := by
    rw [List.append_assoc]
    rfl
  have hlook : mlToIntegrated (pre ++ rowLast :: suf) q = some rowLast.movie_id := by
    rw [hshape, mlToIntegrated_append_no_owner suf (pre ++ [rowLast]) q hsuf]
    rw [mlToIntegrated_append]
    rw [if_pos (List.mem_filter.mpr ⟨hmem, by simpa using hne⟩)]
  refine ⟨hlook, fun ratings p hp hq => ?_⟩
  have := remap_lookup_of_mem (pre ++ rowLast :: suf) ratings p hp
  rw [hq, hlook] at this
  exact (Option.some.injEq _ _ ▸ this).symm

/-- An integrated row owning native id `"5"`, overwritten later. -/
def exC10pre : IntegratedMovie := ⟨1, some "x", none, "", none, 0, none, [], ["5"], []⟩

/-- A later integrated row also claiming native id `"5"`. -/
def exC10last : IntegratedMovie := ⟨2, some "y", none, "", none, 0, none, [], ["5"], []⟩

/-- A final integrated row that does not list native id `"5"`. -/
def exC10suf : IntegratedMovie := ⟨3, some "z", none, "", none, 0, none, [], ["7"], []⟩

/-- Witness for C10: with two rows both listing native id `"5"` and a
trailing row that does not, the lookup resolves `"5"` to the movie id of
the last owning row. -/
theorem duplicate_native_id_last_wins_witness :
    mlToIntegrated [exC10pre, exC10last, exC10suf] "5" = some 2 :=
  (duplicate_native_id_last_wins [exC10pre] [exC10suf] exC10last "5"
    ⟨exC10pre, by decide, by decide⟩ (by decide) (by decide)
    (by decide)).1

/-! ### Genre normalization -/

theorem mem_insertTok {x t : List Char} :
    ∀ {l : List (List Char)}, x ∈ insertTok t l ↔ x = t ∨ x ∈ l
  | [] => by simp [insertTok]
  | u :: us => by
    rw [insertTok]
    by_cases h : charListLe t u = true
    · simp [h, List.mem_cons]
    · simp only [if_neg h, List.mem_cons, mem_insertTok (l := us)]
      tauto

theorem mem_sortToks {x : List Char} :
    ∀ {l : List (List Char)}, x ∈ sortToks l ↔ x ∈ l
  | [] => Iff.rfl
  | u :: us => by
    rw [sortToks, List.foldr_cons]
    rw [show List.foldr insertTok [] us = sortToks us from rfl]
    rw [mem_insertTok]
    simp [mem_sortToks (l := us)]

theorem mem_sortedSet {x : List Char} {l : List (List Char)} :
    x ∈ sortedSet l ↔ x ∈ l := by
  rw [sortedSet, mem_sortToks, List.mem_dedup]

theorem genreMapping_ne_scifi (g : List Char) :
    genreMapping g ≠ "sci-fi".data ∧ genreMapping g ≠ "scifi".data := by
  rw [genreMapping]
  by_cases h : (g = "sci-fi".data || g = "scifi".data) = true
  · rw [if_pos h]
    exact ⟨by decide, by decide⟩
  · rw [if_neg h]
    simp only [Bool.or_eq_true, decide_eq_true_eq, not_or] at h
    exact h

/-- C7: IMDb-style genre normalization is order-independent and
de-duplicating — `"Sci-Fi,Action"` and `"Action,SciFi"` normalize to the
same sorted pipe-joined string `"action|science fiction"` — and for every
input string the sorted token set that gets pipe-joined never contains the
tokens `"sci-fi"` or `"scifi"` (the synonym mapping replaces both with
`"science fiction"`). -/
theorem genre_normalization :
    normalize_genres (some "Sci-Fi,Action") "imdb" =
      normalize_genres (some "Action,SciFi") "imdb" ∧
    normalize_genres (some "Sci-Fi,Action") "imdb" = "action|science fiction" ∧
    (∀ s : String,
      "sci-fi".data ∉ sortedSet ((genreParts (some s) "imdb").map genreMapping) ∧
      "scifi".data ∉ sortedSet ((genreParts (some s) "imdb").map genreMapping)) := by
  refine ⟨by decide, by decide, fun s => ⟨fun hmem => ?_, fun hmem => ?_⟩⟩
  · obtain ⟨g, _, hg⟩ := List.mem_map.mp (mem_sortedSet.mp hmem)
    exact (genreMapping_ne_scifi g).1 hg
  · obtain ⟨g, _, hg⟩ := List.mem_map.mp (mem_sortedSet.mp hmem)
    exact (genreMapping_ne_scifi g).2 hg

/-! ### Rating scale -/

/-- C9: for records produced by the three source mediators, the MovieLens
rescale multiplies the native pre-aggregated mean by exactly 2 while IMDb
and TMDb ratings pass through unchanged; consequently, whenever the native
value lies in its native scale (0–10 for IMDb/TMDb, 0.5–5 for MovieLens),
the mediated `rating_value` is present and lies in `[0, 10]`. -/
theorem mediator_rating_range :
    (∀ row : IMDbRow,
      (map_imdb_to_mediated row).rating_value = row.averageRating ∧
      (∀ r : ℚ, row.averageRating = some r → 0 ≤ r → r ≤ 10 →
        ∃ v, (map_imdb_to_mediated row).rating_value = some v ∧ 0 ≤ v ∧ v ≤ 10)) ∧
    (∀ row : MLMovieRow,
      (map_movielens_to_mediated row).rating_value =
        row.rating_mean.map (fun r => r * 2) ∧
      (∀ r : ℚ, row.rating_mean = some r → 1 / 2 ≤ r → r ≤ 5 →
        ∃ v, (map_movielens_to_mediated row).rating_value = some v ∧ 0 ≤ v ∧ v ≤ 10)) ∧
    (∀ row : TmdbRow,
      (map_tmdb_to_mediated row).rating_value = row.vote_average ∧
      (∀ r : ℚ, row.vote_average = some r → 0 ≤ r → r ≤ 10 →
        ∃ v, (map_tmdb_to_mediated row).rating_value = some v ∧ 0 ≤ v ∧ v ≤ 10)) := by
  refine ⟨fun row => ⟨?_, ?_⟩, fun row => ⟨?_, ?_⟩, fun row => ⟨?_, ?_⟩⟩
  · show scale_rating_to_10 row.averageRating "imdb" = row.averageRating
    cases row.averageRating with
    | none => rfl
    | some r =>
      rw [scale_rating_to_10, if_neg (by decide)]
  · intro r hr h0 h10
    refine ⟨r, ?_, h0, h10⟩
    show scale_rating_to_10 row.averageRating "imdb" = some r
    rw [hr, scale_rating_to_10, if_neg (by decide)]
  · show scale_rating_to_10 row.rating_mean "movielens" =
      row.rating_mean.map (fun r => r * 2)
    cases row.rating_mean with
    | none => rfl
    | some r =>
      rw [scale_rating_to_10, if_pos rfl]
      rfl
  · intro r hr h0 h10
    refine ⟨r * 2, ?_, by linarith, by linarith⟩
    show scale_rating_to_10 row.rating_mean "movielens" = some (r * 2)
    rw [hr, scale_rating_to_10, if_pos rfl]
  · show scale_rating_to_10 row.vote_average "tmdb" = row.vote_average
    cases row.vote_average with
    | none => rfl
    | some r =>
      rw [scale_rating_to_10, if_neg (by decide)]
  · intro r hr h0 h10
    refine ⟨r, ?_, h0, h10⟩
    show scale_rating_to_10 row.vote_average "tmdb" = some r
    rw [hr, scale_rating_to_10, if_neg (by decide)]

/-- A MovieLens movie row with native mean rating 4. -/
def exC9row : MLMovieRow := ⟨1, some "Toy Story (1995)", none, some 4, some 10⟩

/-- Witness for C9: a native MovieLens mean of 4 (inside 0.5–5) mediates
to a present rating in `[0, 10]` (namely 8). -/
theorem mediator_rating_range_witness :
    (∃ v, (map_movielens_to_mediated exC9row).rating_value = some v ∧
      0 ≤ v ∧ v ≤ 10) ∧
    (map_movielens_to_mediated exC9row).rating_value = some 8 := by
  constructor
  · exact (mediator_rating_range.2.1 exC9row).2 4 rfl (by norm_num) (by norm_num)
  · have h := (mediator_rating_range.2.1 exC9row).1
    rw [h]
    norm_num [exC9row]

/-! ### Year extraction -/

theorem findYear_eq_none_iff :
    ∀ cs : List Char, findYear cs = none ↔ ∀ p, headYear (cs.drop p) = none
  | [] => by
    constructor
    · intro _ p
      rw [List.drop_nil]
      rfl
    · intro _
      rfl
  | c :: cs => by
    rw [findYear]
    cases hh : headYear (c :: cs) with
    | some y =>
      constructor
      · intro h
        exact absurd h (by simp)
      · intro h
        have h0 := h 0
        rw [List.drop_zero] at h0
        rw [hh] at h0
        exact absurd h0 (by simp)
    | none =>
      rw [findYear_eq_none_iff cs]
      constructor
      · intro h p
        cases p with
        | zero => rw [List.drop_zero]; exact hh
        | succ p => exact h p
      · intro h p
        exact h (p + 1)

theorem findYear_eq_some :
    ∀ (cs : List Char) (y : Int), findYear cs = some y →
      ∃ p, headYear (cs.drop p) = some y ∧ ∀ q, q < p → headYear (cs.drop q) = none
  | [], y, h => by exact absurd h (by simp [findYear])
  | c :: cs, y, h => by
    rw [findYear] at h
    cases hh : headYear (c :: cs) with
    | some y' =>
      rw [hh] at h
      refine ⟨0, ?_, fun q hq => absurd hq (Nat.not_lt_zero q)⟩
      rw [List.drop_zero, hh]
      exact h
    | none =>
      rw [hh] at h
      obtain ⟨p, h1, h2⟩ := findYear_eq_some cs y h
      refine ⟨p + 1, h1, fun q hq => ?_⟩
      cases q with
      | zero => rw [List.drop_zero]; exact hh
      | succ q => exact h2 q (Nat.succ_lt_succ_iff.mp hq)

/-- C8 (amended): the year mediated for a MovieLens record is extracted by
`re.search` from the first (leftmost) `"(YYYY)"` pattern occurring
anywhere in the title — not only from a trailing one — and it is unknown
(not an error) exactly when no such pattern occurs at any position. -/
theorem ml_year_first_match (row : MLMovieRow) (t : String)
    (h : row.title = some t) :
    ((map_movielens_to_mediated row).year = findYear t.data) ∧
    (findYear t.data = none ↔ ∀ p, yearPatternAt t.data p = none) ∧
    (∀ y, findYear t.data = some y →
      ∃ p, yearPatternAt t.data p = some y ∧
        ∀ q, q < p → yearPatternAt t.data q = none) := by
  refine ⟨?_, findYear_eq_none_iff t.data, fun y hy => findYear_eq_some t.data y hy⟩
  show extractYearFromTitleOpt row.title = findYear t.data
  rw [h]
  rfl

/-- A MovieLens movie row titled `"Toy Story (1995)"`. -/
def exC8row : MLMovieRow := ⟨1, some "Toy Story (1995)", none, none, none⟩

/-- Witness for C8 (amended): on the title `"Toy Story (1995)"` the
mediated year is the leftmost `(YYYY)` match, 1995. -/
theorem ml_year_first_match_witness :
    (map_movielens_to_mediated exC8row).year = findYear "Toy Story (1995)".data ∧
    (map_movielens_to_mediated exC8row).year = some 1995 := by
  constructor
  · exact (ml_year_first_match exC8row "Toy Story (1995)" rfl).1
  · decide

/-- A MovieLens movie row whose title starts (rather than ends) with a
parenthesised year. -/
def exC8bad : MLMovieRow := ⟨2, some "(1984) Running", none, none, none⟩

/-- C8 counterexample: the title `"(1984) Running"` has no trailing
`"(YYYY)"` pattern — the spec's rule would mediate an unknown year — yet
`extract_year_from_title` uses `re.search`, finds the pattern at the
start, and the mediated year is 1984, not unknown. -/
theorem ml_year_counterexample :
    trailingYearOf "(1984) Running".data = none ∧
    extract_year_from_title "(1984) Running" = some 1984 ∧
    (map_movielens_to_mediated exC8bad).year = some 1984 := by
  refine ⟨by decide, by decide, by decide⟩

/-! ### Title normalization: structure of collapsed strings -/

/-- Soundness of Python-style word splitting: every produced word is
non-empty and consists of non-whitespace characters drawn from the input
(or the accumulator), each satisfying an arbitrary invariant `P`. -/
theorem wordsOfAux_sound (P : Char → Prop) :
    ∀ (cs acc : List Char), (∀ c ∈ cs, pyIsSpace c = false → P c) →
      (∀ c ∈ acc, pyIsSpace c = false ∧ P c) →
      ∀ w ∈ wordsOfAux cs acc, w ≠ [] ∧ ∀ c ∈ w, pyIsSpace c = false ∧ P c
  | [], acc, _, hacc, w, hw => by
    rw [wordsOfAux] at hw
    by_cases hac : acc = []
    · rw [if_pos hac] at hw
      exact absurd hw (List.not_mem_nil w)
    · rw [if_neg hac] at hw
      rcases List.mem_singleton.mp hw with rfl
      refine ⟨by simpa using hac, fun c hc => hacc c (List.mem_reverse.mp hc)⟩
  | c :: cs, acc, hcs, hacc, w, hw => by
    rw [wordsOfAux] at hw
    by_cases hsp : pyIsSpace c
    · rw [if_pos hsp] at hw
      by_cases hac : acc = []
      · rw [if_pos hac] at hw
        exact wordsOfAux_sound P cs []
          (fun d hd => hcs d (List.mem_cons_of_mem c hd)) (by simp) w hw
      · rw [if_neg hac] at hw
        rcases List.mem_cons.mp hw with rfl | hw'
        · refine ⟨by simpa using hac, fun d hd => hacc d (List.mem_reverse.mp hd)⟩
        · exact wordsOfAux_sound P cs []
            (fun d hd => hcs d (List.mem_cons_of_mem c hd)) (by simp) w hw'
    · rw [if_neg hsp] at hw
      have hc : pyIsSpace c = false := Bool.eq_false_iff.mpr hsp
      exact wordsOfAux_sound P cs (c :: acc)
        (fun d hd => hcs d (List.mem_cons_of_mem c hd))
        (fun d hd => by
          rcases List.mem_cons.mp hd with rfl | hd'
          · exact ⟨hc, hcs d (List.mem_cons_self d cs) hc⟩
          · exact hacc d hd') w hw

/-- Splitting passes over a block of non-whitespace characters by moving
it into the accumulator. -/
theorem wordsOfAux_pass :
    ∀ (w : List Char), (∀ c ∈ w, pyIsSpace c = false) →
      ∀ (cs acc : List Char), wordsOfAux (w ++ cs) acc = wordsOfAux cs (w.reverse ++ acc)
  | [], _, cs, acc => by simp
  | c :: w, hw, cs, acc => by
    have hc : pyIsSpace c = false := hw c (List.mem_cons_self c w)
    rw [List.cons_append, wordsOfAux, if_neg (by simp [hc])]
    rw [wordsOfAux_pass w (fun d hd => hw d (List.mem_cons_of_mem c hd)) cs (c :: acc)]
    rw [List.reverse_cons, List.append_assoc]
    rfl

/-- Words made of non-whitespace characters are recovered exactly when
re-splitting their single-space join. -/
theorem wordsOf_joinWords :
    ∀ ws : List (List Char),
      (∀ w ∈ ws, w ≠ [] ∧ ∀ c ∈ w, pyIsSpace c = false) →
      wordsOf (joinWords ws) = ws
  | [], _ => rfl
  | [w], h => by
    obtain ⟨hne, hns⟩ := h w (List.mem_singleton_self w)
    show wordsOfAux (joinWith ' ' [w]) [] = [w]
    have : joinWith ' ' [w] = w ++ [] := by simp [joinWith]
    rw [this, wordsOfAux_pass w hns [] [], wordsOfAux]
    rw [List.append_nil, if_neg (by simpa using hne)]
    rw [List.reverse_reverse]
  | w :: w2 :: ws, h => by
    obtain ⟨hne, hns⟩ := h w (List.mem_cons_self w (w2 :: ws))
    show wordsOfAux (joinWith ' ' (w :: w2 :: ws)) [] = w :: w2 :: ws
    have hj : joinWith ' ' (w :: w2 :: ws) = w ++ ' ' :: joinWith ' ' (w2 :: ws) := rfl
    rw [hj, wordsOfAux_pass w hns _ [], wordsOfAux]
    rw [if_pos (by decide)]
    rw [List.append_nil, if_neg (by simpa using hne), List.reverse_reverse]
    exact congrArg (w :: ·)
      (wordsOf_joinWords (w2 :: ws) (fun u hu => h u (List.mem_cons_of_mem w hu)))

/-- Collapsing whitespace is the identity on a single-space join of
non-empty non-whitespace words. -/
theorem collapseWs_joinWords (ws : List (List Char))
    (h : ∀ w ∈ ws, w ≠ [] ∧ ∀ c ∈ w, pyIsSpace c = false) :
    collapseWs (joinWords ws) = joinWords ws := by
  rw [collapseWs, wordsOf_joinWords ws h]

/-- Every character of a single-space join is a space or belongs to one of
the words. -/
theorem mem_joinWords :
    ∀ (ws : List (List Char)) (c : Char), c ∈ joinWords ws →
      c = ' ' ∨ ∃ w ∈ ws, c ∈ w
  | [], c, hc => absurd hc (List.not_mem_nil c)
  | [w], c, hc => Or.inr ⟨w, List.mem_singleton_self w, hc⟩
  | w :: w2 :: ws, c, hc => by
    have hj : joinWords (w :: w2 :: ws) = w ++ ' ' :: joinWords (w2 :: ws) := rfl
    rw [hj] at hc
    rcases List.mem_append.mp hc with hw | hrest
    · exact Or.inr ⟨w, List.mem_cons_self w _, hw⟩
    · rcases List.mem_cons.mp hrest with rfl | htail
      · exact Or.inl rfl
      · rcases mem_joinWords (w2 :: ws) c htail with hsp | ⟨u, hu, hcu⟩
        · exact Or.inl hsp
        · exact Or.inr ⟨u, List.mem_cons_of_mem w hu, hcu⟩

/-! ### Title normalization: the article regex on collapsed strings -/

/-- `art\s+` cannot match inside a string of non-whitespace characters. -/
theorem dropStart_all_nonspace :
    ∀ (art w : List Char), (∀ c ∈ w, pyIsSpace c = false) → dropStart art w = none
  | [], [], _ => rfl
  | [], c :: w, hw => by
    rw [dropStart]
    rw [if_neg (by simp [hw c (List.mem_cons_self c w)])]
  | _ :: _, [], _ => rfl
  | a :: art, c :: w, hw => by
    rw [dropStart]
    by_cases hca : c = a
    · rw [if_pos hca]
      exact dropStart_all_nonspace art w (fun d hd => hw d (List.mem_cons_of_mem c hd))
    · rw [if_neg hca]

/-- Matching `art\s+` against `w ++ ' ' :: r` where `w` and `art` are
whitespace-free succeeds exactly when `art = w`, and then consumes the
whole whitespace run. -/
theorem dropStart_word_space :
    ∀ (art : List Char), (∀ c ∈ art, pyIsSpace c = false) →
      ∀ (w r : List Char), (∀ c ∈ w, pyIsSpace c = false) →
        dropStart art (w ++ ' ' :: r) =
          if art = w then some (r.dropWhile pyIsSpace) else none
  | [], _, [], r, _ => by
    rw [List.nil_append, dropStart, if_pos rfl, if_pos (by decide)]
    rw [List.dropWhile_cons_of_pos (by decide)]
  | [], _, c :: w, r, hw => by
    rw [List.cons_append, dropStart]
    rw [if_neg (by simp [hw c (List.mem_cons_self c w)])]
    rw [if_neg (by simp)]
  | a :: art, hart, [], r, _ => by
    rw [List.nil_append, dropStart]
    have ha : pyIsSpace a = false := hart a (List.mem_cons_self a art)
    rw [if_neg (fun h => by rw [← h] at ha; exact absurd ha (by decide))]
    rw [if_neg (by simp)]
  | a :: art, hart, c :: w, r, hw => by
    rw [List.cons_append, dropStart]
    by_cases hca : c = a
    · subst hca
      rw [if_pos rfl]
      rw [dropStart_word_space art
        (fun d hd => hart d (List.mem_cons_of_mem c hd)) w r
        (fun d hd => hw d (List.mem_cons_of_mem c hd))]
      by_cases h : art = w
      · rw [if_pos h, if_pos (by rw [h])]
      · rw [if_neg h, if_neg (fun hcc => h (by injection hcc))]
    · rw [if_neg hca]
      rw [if_neg (fun hcc => hca (by injection hcc with h1 h2; exact h1.symm))]

/-- A join starting with a non-empty whitespace-free word is untouched by
a leading `dropWhile pyIsSpace`. -/
theorem dropWhile_joinWords_cons (w2 : List Char) (ws' : List (List Char))
    (hne : w2 ≠ []) (hns : ∀ c ∈ w2, pyIsSpace c = false) :
    (joinWords (w2 :: ws')).dropWhile pyIsSpace = joinWords (w2 :: ws') := by
  cases w2 with
  | nil => exact absurd rfl hne
  | cons c t =>
    have hc : pyIsSpace c = false := hns c (List.mem_cons_self c t)
    cases ws' with
    | nil =>
      show ((c :: t) : List Char).dropWhile pyIsSpace = c :: t
      rw [List.dropWhile_cons, if_neg (by simp [hc])]
    | cons w3 ws'' =>
      have hj : joinWords ((c :: t) :: w3 :: ws'') =
          c :: (t ++ ' ' :: joinWords (w3 :: ws'')) := rfl
      rw [hj, List.dropWhile_cons, if_neg (by simp [hc])]

/-- The leading-article regex acting on a single-space join of good words
either fails, or removes exactly the first word (which then must be an
article) together with its separating space. -/
theorem articleStripped_joinWords (ws : List (List Char))
    (h : ∀ w ∈ ws, w ≠ [] ∧ ∀ c ∈ w, pyIsSpace c = false) :
    articleStripped (joinWords ws) = none ∨
      articleStripped (joinWords ws) = some (joinWords ws.tail) := by
  cases ws with
  | nil =>
    left
    decide
  | cons w ws' =>
    obtain ⟨hne, hns⟩ := h w (List.mem_cons_self w ws')
    cases ws' with
    | nil =>
      left
      have hj : joinWords [w] = w := by
        cases w with
        | nil => rfl
        | cons c t => rfl
      rw [hj]
      unfold articleStripped
      rw [dropStart_all_nonspace ['t', 'h', 'e'] w hns,
        dropStart_all_nonspace ['a'] w hns,
        dropStart_all_nonspace ['a', 'n'] w hns]
    | cons w2 ws'' =>
      obtain ⟨hne2, hns2⟩ := h w2 (List.mem_cons_of_mem w (List.mem_cons_self w2 ws''))
      have hj : joinWords (w :: w2 :: ws'') =
          w ++ ' ' :: joinWords (w2 :: ws'') := rfl
      have hdw : (joinWords (w2 :: ws'')).dropWhile pyIsSpace =
          joinWords (w2 :: ws'') := dropWhile_joinWords_cons w2 ws'' hne2 hns2
      have hthe := dropStart_word_space ['t', 'h', 'e'] (by decide) w
        (joinWords (w2 :: ws'')) hns
      have hA := dropStart_word_space ['a'] (by decide) w
        (joinWords (w2 :: ws'')) hns
      have hAn := dropStart_word_space ['a', 'n'] (by decide) w
        (joinWords (w2 :: ws'')) hns
      unfold articleStripped
      rw [hj, hthe, hA, hAn]
      by_cases h1 : (['t', 'h', 'e'] : List Char) = w
      · rw [if_pos h1]
        right
        show some ((joinWords (w2 :: ws'')).dropWhile pyIsSpace) =
          some (joinWords (w2 :: ws''))
        rw [hdw]
      · rw [if_neg h1]
        by_cases h2 : (['a'] : List Char) = w
        · rw [if_pos h2]
          right
          show some ((joinWords (w2 :: ws'')).dropWhile pyIsSpace) =
            some (joinWords (w2 :: ws''))
          rw [hdw]
        · rw [if_neg h2]
          by_cases h3 : (['a', 'n'] : List Char) = w
          · rw [if_pos h3]
            right
            show some ((joinWords (w2 :: ws'')).dropWhile pyIsSpace) =
              some (joinWords (w2 :: ws''))
            rw [hdw]
          · rw [if_neg h3]
            left
            rfl

/-! ### Title normalization: fixed points of the pipeline stages -/

theorem stripTrailingYear_eq_self (cs : List Char) (h : ∀ c ∈ cs, c ≠ ')') :
    stripTrailingYear cs = cs := by
  rw [stripTrailingYear]
  split
  · exfalso
    rename_i d4 d3 d2 d1 rest heq
    have hm : ')' ∈ cs := by
      rw [← List.mem_reverse, heq]
      exact List.mem_cons_self _ _
    exact h ')' hm rfl
  · rfl

theorem map_id_of_mem {α : Type _} {f : α → α} :
    ∀ {l : List α}, (∀ c ∈ l, f c = c) → l.map f = l
  | [], _ => rfl
  | c :: l, h => by
    rw [List.map_cons, h c (List.mem_cons_self c l),
      map_id_of_mem (fun d hd => h d (List.mem_cons_of_mem c hd))]

theorem toLowerChar_id_of_keep {c : Char} (hk : keepChar c = true) :
    toLowerChar c = c := by
  rw [toLowerChar]
  rw [if_neg]
  intro hcond
  rw [Bool.and_eq_true, decide_eq_true_eq, decide_eq_true_eq] at hcond
  obtain ⟨hA, hZ⟩ := hcond
  rw [keepChar, Bool.or_eq_true, Bool.or_eq_true] at hk
  rcases hk with (hk | hk) | hk
  · rw [Bool.and_eq_true, decide_eq_true_eq, decide_eq_true_eq] at hk
    exact absurd (le_trans hk.1 hZ) (by decide)
  · rw [isDigitChar, Bool.and_eq_true, decide_eq_true_eq, decide_eq_true_eq] at hk
    exact absurd (le_trans hA hk.2) (by decide)
  · rw [pyIsSpace] at hk
    simp only [Bool.or_eq_true, decide_eq_true_eq] at hk
    rcases hk with ((((rfl | rfl) | rfl) | rfl) | rfl) | rfl <;> revert hA <;> decide

/-- The normalization pipeline is the identity on a single-space join of
non-empty words of kept (lowercase-alphanumeric) characters when no
leading-article match exists. -/
theorem normalizeChars_fixed (ws' : List (List Char))
    (hg : ∀ w ∈ ws', w ≠ [] ∧ ∀ c ∈ w, pyIsSpace c = false ∧ keepChar c = true)
    (hnoart : hasLeadingArticle (joinWords ws') = false) :
    normalizeChars (joinWords ws') = joinWords ws' := by
  have hkeep : ∀ c ∈ joinWords ws', keepChar c = true := by
    intro c hc
    rcases mem_joinWords ws' c hc with rfl | ⟨w, hw, hcw⟩
    · decide
    · exact ((hg w hw).2 c hcw).2
  have hnp : ∀ c ∈ joinWords ws', c ≠ ')' := by
    intro c hc he
    subst he
    exact absurd (hkeep ')' hc) (by decide)
  rw [normalizeChars]
  rw [stripTrailingYear_eq_self _ hnp]
  rw [map_id_of_mem (fun c hc => toLowerChar_id_of_keep (hkeep c hc))]
  rw [List.filter_eq_self.mpr (fun c hc => hkeep c hc)]
  rw [collapseWs_joinWords ws'
    (fun w hw => ⟨(hg w hw).1, fun c hc => ((hg w hw).2 c hc).1⟩)]
  rw [stripLeadingArticle]
  cases hart2 : articleStripped (joinWords ws') with
  | none => rfl
  | some r =>
    exfalso
    rw [hasLeadingArticle, hart2] at hnoart
    exact absurd hnoart (by simp)

/-- C6 (amended): `normalize_title` is idempotent on every input whose
normalized form does not itself begin with a leading article followed by
whitespace (a second application can only strip one further article — all
other pipeline stages are the identity on a normalized string); and
`normalize_title "The Matrix (1999)" = normalize_title "matrix"`. -/
theorem normalize_title_idempotent_unless_article :
    (∀ s : String, hasLeadingArticle (normalize_title s).data = false →
      normalize_title (normalize_title s) = normalize_title s) ∧
    normalize_title "The Matrix (1999)" = normalize_title "matrix" := by
  constructor
  · intro s h
    suffices hfix : normalizeChars ((normalize_title s).data) = (normalize_title s).data by
      show (⟨normalizeChars ((normalize_title s).data)⟩ : String) = normalize_title s
      rw [hfix]
    have hgood : ∀ w ∈ wordsOf (((stripTrailingYear s.data).map toLowerChar).filter keepChar),
        w ≠ [] ∧ ∀ c ∈ w, pyIsSpace c = false ∧ keepChar c = true :=
      fun w hw => wordsOfAux_sound (fun c => keepChar c = true)
        (((stripTrailingYear s.data).map toLowerChar).filter keepChar) []
        (fun c hc _ => (List.mem_filter.mp hc).2) (by simp) w hw
    have hgood' : ∀ w ∈ wordsOf (((stripTrailingYear s.data).map toLowerChar).filter keepChar),
        w ≠ [] ∧ ∀ c ∈ w, pyIsSpace c = false :=
      fun w hw => ⟨(hgood w hw).1, fun c hc => ((hgood w hw).2 c hc).1⟩
    have hn : (normalize_title s).data = stripLeadingArticle
        (joinWords (wordsOf (((stripTrailingYear s.data).map toLowerChar).filter keepChar))) := rfl
    rcases articleStripped_joinWords _ hgood' with hart | hart
    · have ht0 : (normalize_title s).data =
          joinWords (wordsOf (((stripTrailingYear s.data).map toLowerChar).filter keepChar)) := by
        rw [hn, stripLeadingArticle, hart]
        rfl
      rw [ht0] at h ⊢
      exact normalizeChars_fixed _ hgood h
    · have ht0 : (normalize_title s).data =
          joinWords ((wordsOf (((stripTrailingYear s.data).map toLowerChar).filter keepChar)).tail) := by
        rw [hn, stripLeadingArticle, hart]
        rfl
      rw [ht0] at h ⊢
      exact normalizeChars_fixed _
        (fun w hw => hgood w (List.mem_of_mem_tail hw)) h
  · decide

/-- Witness for C6 (amended): `"Toy Story (1995)"` normalizes to
`"toy story"`, which has no leading article, and a second normalization
leaves it unchanged. -/
theorem normalize_title_idempotent_witness :
    hasLeadingArticle (normalize_title "Toy Story (1995)").data = false ∧
    normalize_title (normalize_title "Toy Story (1995)") =
      normalize_title "Toy Story (1995)" := by
  refine ⟨by decide, ?_⟩
  exact normalize_title_idempotent_unless_article.1 "Toy Story (1995)" (by decide)

/-- C6 counterexample: `normalize_title` is not idempotent on every
string.  `"The The Matrix"` normalizes to `"the matrix"` (only one
leading article is stripped), and a second application strips the
remaining article, yielding `"matrix"`. -/
theorem normalize_title_not_idempotent :
    normalize_title (normalize_title "The The Matrix") ≠
      normalize_title "The The Matrix" ∧
    normalize_title "The The Matrix" = "the matrix" ∧
    normalize_title (normalize_title "The The Matrix") = "matrix" := by
  refine ⟨by decide, by decide, by decide⟩

end MovieRec
